import Mathlib

/-!
Verification of the `BOM` (bill of materials) class from `src/BOM.ts`, together
with the legacy JavaScript implementation of `remove`.

Modelling conventions:
* JavaScript `Map` objects are modelled as association lists with JS `Map`
  semantics: `set` overwrites the value at the first occurrence of the key and
  otherwise appends, `get` returns the first binding, `delete` removes the key.
* JavaScript numbers are modelled as `Int`; the claims under scrutiny do not
  involve fractional or NaN arithmetic.  A detail field that may be `undefined`
  (or not a number at all) is modelled as `Option Int` with `none` for the
  missing/non-numeric case.
* The asynchronous user query function (`IQueryFunction`) is modelled as a
  function `String → Option QueryDetails` stored in the state: `some d` means
  the returned promise fulfills with `d`, `none` means it rejects.  An
  operation returns `(newState, ok)` where `ok = false` models a rejected
  promise.  Each invocation of the query function is recorded in the ghost
  field `lookupLog`.
-/

/-- The record returned by the user query function (`IBOMItemDetails`).
`unitCost`/`unitWeight` are `Option Int`: `none` models an `undefined` or
non-numeric value. -/
structure QueryDetails where
  title : String := ""
  description : String := ""
  manufacturer : Option String := none
  manufacturerPartNumber : Option String := none
  unit : String := ""
  unitCost : Option Int := none
  unitWeight : Option Int := none
deriving DecidableEq, Repr

/-- A cached detail record: the query result merged (spread) with the current
part number and quantity, as in `{...details, partNumber, quantity}`. -/
structure BOMItemDetails where
  partNumber : String
  quantity : Int
  info : QueryDetails
deriving DecidableEq, Repr

/-- `Map.get`: first binding of the key, if any. -/
def alGet {α : Type} (m : List (String × α)) (k : String) : Option α :=
  (m.find? (fun p => p.1 = k)).map (fun p => p.2)

/-- `Map.set`: overwrite the first binding of the key, else append. -/
def alSet {α : Type} : List (String × α) → String → α → List (String × α)
  | [], k, v => [(k, v)]
  | (k', v') :: rest, k, v =>
    if k' = k then (k, v) :: rest else (k', v') :: alSet rest k v

/-- `Map.delete`: remove all bindings of the key (keys are unique in a JS
`Map`, so this agrees with deleting the single binding). -/
def alDelete {α : Type} : List (String × α) → String → List (String × α)
  | [], _ => []
  | (k', v') :: rest, k =>
    if k' = k then alDelete rest k else (k', v') :: alDelete rest k

/-- The state of a `BOM` instance: the stored query function, the `_items`
map (part number → quantity), the `_details` map, and a ghost log of the part
numbers passed to `_getItemInfo`. -/
structure BOMState where
  lookup : String → Option QueryDetails
  items : List (String × Int)
  details : List (String × BOMItemDetails)
  lookupLog : List String

/-- Constructor: both maps start empty.  (The runtime type checks of
`sanitizeInputs` and the constructor cannot fail in the typed model.) -/
def BOM.mk (lookup : String → Option QueryDetails) : BOMState :=
  { lookup := lookup, items := [], details := [], lookupLog := [] }

/-- `add(partNumber, quantity)` from `src/BOM.ts` lines 60–74.  If the part
number is tracked its quantity is incremented (no lookup); otherwise the
quantity is inserted and the query function is awaited, storing the merged
details on fulfillment.  The `Bool` is `false` iff the returned promise
rejects. -/
def BOM.add (s : BOMState) (pn : String) (q : Int) : BOMState × Bool :=
  match alGet s.items pn with
  | some pq => ({ s with items := alSet s.items pn (pq + q) }, true)
  | none =>
    let s1 : BOMState :=
      { s with items := alSet s.items pn q, lookupLog := s.lookupLog ++ [pn] }
    match s.lookup pn with
    | some d =>
      ({ s1 with details := alSet s1.details pn ⟨pn, q, d⟩ }, true)
    | none => (s1, false)

/-- `set(partNumber, quantity)` from `src/BOM.ts` lines 81–97. -/
def BOM.set (s : BOMState) (pn : String) (q : Int) : BOMState × Bool :=
  if (alGet s.items pn).isSome then
    if q ≤ 0 then
      ({ s with items := alDelete s.items pn, details := alDelete s.details pn }, true)
    else
      ({ s with items := alSet s.items pn q }, true)
  else if 0 < q then
    let s1 : BOMState :=
      { s with items := alSet s.items pn q, lookupLog := s.lookupLog ++ [pn] }
    match s.lookup pn with
    | some d =>
      ({ s1 with details := alSet s1.details pn ⟨pn, q, d⟩ }, true)
    | none => (s1, false)
  else (s, true)

/-- `remove(partNumber, quantity)` from `src/BOM.ts` lines 105–124.
`quantity = none` models an omitted argument.  The runtime type errors cannot
fire on typed inputs, so the operation always succeeds. -/
def BOM.remove (s : BOMState) (pn : String) (qty : Option Int) : BOMState :=
  let newQty := (alGet s.items pn).getD 0 - qty.getD 0
  if qty = none ∨ newQty ≤ 0 then
    { s with items := alDelete s.items pn, details := alDelete s.details pn }
  else
    { s with items := alSet s.items pn newQty }

/-- `getDetails(partNumber)` from `src/BOM.ts` lines 133–141: the promise
resolves to the cached record, or `undefined` (`none`) if untracked. -/
def BOM.getDetails (s : BOMState) (pn : String) : Option BOMItemDetails :=
  alGet s.details pn

/-- `Promise.all` over the detail lookups created by `refresh`: `none` iff any
single lookup rejects, otherwise the list of merged results in items order. -/
def resolveAll (l : List (String × Int)) (L : String → Option QueryDetails) :
    Option (List BOMItemDetails) :=
  match l with
  | [] => some []
  | (pn, q) :: rest =>
    match L pn with
    | none => none
    | some d => (resolveAll rest L).map (fun ds => ⟨pn, q, d⟩ :: ds)

/-- `refresh()` from `src/BOM.ts` lines 147–156: one lookup per tracked item
is started (all are logged), and only when every lookup fulfills is each
result written into `_details`. -/
def BOM.refresh (s : BOMState) : BOMState × Bool :=
  let s1 : BOMState :=
    { s with lookupLog := s.lookupLog ++ s.items.map (fun p => p.1) }
  match resolveAll s.items s.lookup with
  | some ds =>
    ({ s1 with details := ds.foldl (fun m d => alSet m d.partNumber d) s.details }, true)
  | none => (s1, false)

/-- `getTotalCost()` from `src/BOM.ts` lines 164–174: accumulate
`(unitCost ?? 0) * quantity` over `_items`. -/
def BOM.getTotalCost (s : BOMState) : Int :=
  s.items.foldl
    (fun acc p =>
      acc + (((alGet s.details p.1).bind (fun d => d.info.unitCost)).getD 0) * p.2)
    0

/-- `getTotalWeight()` from `src/BOM.ts` lines 181–188. -/
def BOM.getTotalWeight (s : BOMState) : Int :=
  s.items.foldl
    (fun acc p =>
      acc + (((alGet s.details p.1).bind (fun d => d.info.unitWeight)).getD 0) * p.2)
    0

/-- A `IBOMTemplateEntry`: part number, quantity expression (a number is
coerced to its string form by `toString()`), optional inclusion expression. -/
structure TemplateEntry where
  partNumber : String
  quantity : Option String := none
  included : Option String := none
deriving DecidableEq, Repr

/-- `entry.quantity?.toString() ?? 0`: the expression text handed to the
expression compiler. -/
def qtyExpr (e : TemplateEntry) : String := e.quantity.getD "0"

/-- `entry.included !== undefined ? expressions.compile(entry.included)(data) : true`:
whether a template entry is included, for a given evaluator and scope. -/
def entryIncluded {σ : Type} (evalIncl : String → σ → Bool) (sc : σ)
    (e : TemplateEntry) : Bool :=
  match e.included with
  | some ex => evalIncl ex sc
  | none => true

/-- `buildFromTemplate(templatePath, data)` from `src/BOM.ts` lines 361–374,
with the parsed template contents passed directly and the external
`angular-expressions` evaluator abstracted as two functions (truthiness of an
inclusion expression, numeric value of a quantity expression) over an
arbitrary scope type `σ`.  Clears both maps, then for each entry whose
inclusion expression is absent or truthy calls `add` with the evaluated
quantity (the promise returned by `add` is discarded, as in the source), and
returns the final state together with the `items` list. -/
def BOM.buildFromTemplate {σ : Type} (evalIncl : String → σ → Bool)
    (evalQty : String → σ → Int) (s : BOMState) (tmpl : List TemplateEntry)
    (sc : σ) : BOMState × List (String × Int) :=
  let s0 : BOMState := { s with items := [], details := [] }
  let s1 := tmpl.foldl
    (fun st e =>
      if entryIncluded evalIncl sc e then
        (BOM.add st e.partNumber (evalQty (qtyExpr e) sc)).1
      else st)
    s0
  (s1, s1.items)

/-- The list of template entries the spec says are included: inclusion
expression absent or truthy.  (Spec-side definition, compared with the fold
inside `BOM.buildFromTemplate`.) -/
def includedEntries {σ : Type} (evalIncl : String → σ → Bool)
    (tmpl : List TemplateEntry) (sc : σ) : List TemplateEntry :=
  tmpl.filter (entryIncluded evalIncl sc)

/-- Spec-side: clearing all current entries from both mappings. -/
def clearState (s : BOMState) : BOMState :=
  { s with items := [], details := [] }

/-- Spec-side: add every entry of a list via the `add` operation, evaluating
its quantity expression against the scope. -/
def addAll {σ : Type} (evalQty : String → σ → Int) (s : BOMState)
    (entries : List TemplateEntry) (sc : σ) : BOMState :=
  entries.foldl (fun st e => (BOM.add st e.partNumber (evalQty (qtyExpr e) sc)).1) s

/-- Spec-side sum for the cost roll-up: quantity × cached `unitCost`, a
missing value contributing zero. -/
def specTotalCost (s : BOMState) : Int :=
  (s.items.map
    (fun p => p.2 * (((alGet s.details p.1).bind (fun d => d.info.unitCost)).getD 0))).sum

/-- Spec-side sum for the weight roll-up. -/
def specTotalWeight (s : BOMState) : Int :=
  (s.items.map
    (fun p => p.2 * (((alGet s.details p.1).bind (fun d => d.info.unitWeight)).getD 0))).sum

/-- The invariant of claim C1: identical key sets in `_items` and `_details`,
and every tracked quantity strictly positive. -/
def BOM.invariantHolds (s : BOMState) : Prop :=
  (∀ pn, (alGet s.items pn).isSome ↔ (alGet s.details pn).isSome) ∧
  (∀ pn q, alGet s.items pn = some q → 0 < q)

/-- States reachable by any sequence of constructor, `add`, `set`, `remove`
and `buildFromTemplate` operations, with arbitrary lookup outcomes. -/
inductive Reach : BOMState → Prop where
  | init (lookup : String → Option QueryDetails) : Reach (BOM.mk lookup)
  | add (s : BOMState) (pn : String) (q : Int) :
      Reach s → Reach (BOM.add s pn q).1
  | set (s : BOMState) (pn : String) (q : Int) :
      Reach s → Reach (BOM.set s pn q).1
  | remove (s : BOMState) (pn : String) (qty : Option Int) :
      Reach s → Reach (BOM.remove s pn qty)
  | build {σ : Type} (evalIncl : String → σ → Bool) (evalQty : String → σ → Int)
      (s : BOMState) (tmpl : List TemplateEntry) (sc : σ) :
      Reach s → Reach (BOM.buildFromTemplate evalIncl evalQty s tmpl sc).1

/-- States reachable by sequences of operations "whose detail lookups have
all resolved", the reachability notion of claim C1 as stated: every `add` and
`set` fulfills its returned promise, and every lookup triggered inside
`buildFromTemplate` fulfills. -/
inductive ReachResolved : BOMState → Prop where
  | init (lookup : String → Option QueryDetails) : ReachResolved (BOM.mk lookup)
  | add (s : BOMState) (pn : String) (q : Int) :
      ReachResolved s → (BOM.add s pn q).2 = true →
      ReachResolved (BOM.add s pn q).1
  | set (s : BOMState) (pn : String) (q : Int) :
      ReachResolved s → (BOM.set s pn q).2 = true →
      ReachResolved (BOM.set s pn q).1
  | remove (s : BOMState) (pn : String) (qty : Option Int) :
      ReachResolved s → ReachResolved (BOM.remove s pn qty)
  | build {σ : Type} (evalIncl : String → σ → Bool) (evalQty : String → σ → Int)
      (s : BOMState) (tmpl : List TemplateEntry) (sc : σ) :
      ReachResolved s →
      (∀ e ∈ includedEntries evalIncl tmpl sc, (s.lookup e.partNumber).isSome) →
      ReachResolved (BOM.buildFromTemplate evalIncl evalQty s tmpl sc).1

/-- The amended reachability of claim C1: all triggered detail lookups
resolve, every quantity passed to `add` (directly or from a template entry's
evaluated quantity expression) is positive, and `remove` with an explicit
quantity is only applied when the part is tracked or the quantity is
non-negative. -/
inductive ReachGood : BOMState → Prop where
  | init (lookup : String → Option QueryDetails) : ReachGood (BOM.mk lookup)
  | add (s : BOMState) (pn : String) (q : Int) :
      ReachGood s → 0 < q →
      (alGet s.items pn = none → (s.lookup pn).isSome) →
      ReachGood (BOM.add s pn q).1
  | set (s : BOMState) (pn : String) (q : Int) :
      ReachGood s →
      (alGet s.items pn = none → 0 < q → (s.lookup pn).isSome) →
      ReachGood (BOM.set s pn q).1
  | remove (s : BOMState) (pn : String) (qty : Option Int) :
      ReachGood s →
      (∀ q, qty = some q → (alGet s.items pn).isSome ∨ 0 ≤ q) →
      ReachGood (BOM.remove s pn qty)
  | build {σ : Type} (evalIncl : String → σ → Bool) (evalQty : String → σ → Int)
      (s : BOMState) (tmpl : List TemplateEntry) (sc : σ) :
      ReachGood s →
      (∀ e ∈ includedEntries evalIncl tmpl sc,
        0 < evalQty (qtyExpr e) sc ∧ (s.lookup e.partNumber).isSome) →
      ReachGood (BOM.buildFromTemplate evalIncl evalQty s tmpl sc).1

/-- The legacy JavaScript `remove(pn, qty)` (unnamed legacy source, lines
149–179), translated faithfully: its first guard is `if (pn !== "string")`,
comparing the part-number VALUE against the string literal `"string"`. -/
def legacyRemove (s : BOMState) (pn : String) (qty : Option Int) :
    Except String BOMState :=
  if pn ≠ "string" then
    Except.error "Part number must be a string."
  else if (alGet s.items pn).isSome = false then
    Except.ok s
  else if qty = none then
    Except.ok { s with items := alDelete s.items pn, details := alDelete s.details pn }
  else
    let newQty := (alGet s.items pn).getD 0 - qty.getD 0
    if newQty ≤ 0 then
      Except.ok { s with items := alDelete s.items pn, details := alDelete s.details pn }
    else
      Except.ok { s with items := alSet s.items pn newQty }

/-- A scope object for expression evaluation: its own declared properties and
the properties visible only through its prototype chain. -/
structure Scope where
  own : String → Option Int
  proto : String → Option Int

/-- Modelled from the spec: the expression evaluator (the external
`angular-expressions` engine, whose code is not part of this repository) reads
identifiers only from the scope's own declared properties — inherited
prototype properties are never visible.  The expression grammar itself is out
of the spec's scope; a small total language (sums of integer literals and
identifiers) stands in for it, with identifier lookup going through the
own-property map only. -/
def specEvalOwn (own : String → Option Int) (e : String) : Int :=
  ((e.splitOn "+").map (fun t =>
    let t' := t.trim
    if t' ≠ "" ∧ t'.all Char.isDigit then ((t'.toNat?).getD 0 : Int)
    else (own t').getD 0)).sum

/-- Modelled from the spec: evaluation of a quantity expression against a
scope, via `specEvalOwn` (own properties only). -/
def specEval (e : String) (sc : Scope) : Int := specEvalOwn sc.own e

/-- Modelled from the spec: truthiness of an inclusion expression. -/
def specTruthy (e : String) (sc : Scope) : Bool := specEval e sc ≠ 0

/-- A query function whose every lookup fulfills with unit cost 10 and unit
weight 2. -/
def lookup10 : String → Option QueryDetails :=
  fun _ => some { unit := "each", unitCost := some 10, unitWeight := some 2 }

/-- A query function whose every lookup rejects. -/
def lookupFail : String → Option QueryDetails := fun _ => none

/-- Three parts, each with unit cost 10, at quantity 1 each. -/
def exState3 : BOMState :=
  (BOM.add (BOM.add (BOM.add (BOM.mk lookup10) "A" 1).1 "B" 1).1 "C" 1).1

/-- A state with the single part "A" tracked at quantity 2. -/
def exStateA : BOMState := (BOM.add (BOM.mk lookup10) "A" 2).1

/-- The state of claim C1's counterexample: `remove("A", -1)` on a fresh
instance. -/
def exStateRemoveNeg : BOMState := BOM.remove (BOM.mk lookup10) "A" (some (-1))

/-- A state built with a rejecting query function: `_items` holds "A" but
`_details` is empty. -/
def exStateFail : BOMState := (BOM.add (BOM.mk lookupFail) "A" 1).1

/-- Repeated `add` calls with the same part number and a list of quantities. -/
def BOM.addMany (s : BOMState) (pn : String) (qs : List Int) : BOMState :=
  qs.foldl (fun st q => (BOM.add st pn q).1) s

/-- An own-property map: the single declared property `n = 2`. -/
def ownPropsEx : String → Option Int := fun x => if x = "n" then some 2 else none

/-- A scope with property `n = 2` and an empty prototype chain. -/
def scopeNoProto : Scope := { own := ownPropsEx, proto := fun _ => none }

/-- A scope with the same own property `n = 2` but a prototype that answers
every name. -/
def scopeWithProto : Scope := { own := ownPropsEx, proto := fun _ => some 99 }

/-- A template with one conditional entry, one unconditional entry and one
entry whose inclusion expression names an undeclared property. -/
def tmplEx : List TemplateEntry :=
  [{ partNumber := "A", quantity := some "n + 1", included := some "n" },
   { partNumber := "B", quantity := some "3" },
   { partNumber := "C", quantity := some "1", included := some "missing" }]

theorem alGet_nil {α : Type} (k : String) : alGet ([] : List (String × α)) k = none := rfl

theorem alGet_cons {α : Type} (a : String) (b : α) (m : List (String × α)) (k : String) :
    alGet ((a, b) :: m) k = if a = k then some b else alGet m k := by
  simp only [alGet, List.find?_cons]
  by_cases h : a = k <;> simp [h]

theorem alGet_alSet {α : Type} (m : List (String × α)) (k k' : String) (v : α) :
    alGet (alSet m k v) k' = if k' = k then some v else alGet m k' := by
  induction m with
  | nil =>
    by_cases h : k' = k <;> simp [alSet, alGet_cons, alGet_nil, h, fun h' => Ne.symm h']
  | cons p rest ih =>
    obtain ⟨k0, v0⟩ := p
    by_cases h0 : k0 = k
    · subst h0
      by_cases h : k0 = k' <;>
        simp [alSet, alGet_cons, h, fun h' => Ne.symm h']
    · simp only [alSet, if_neg h0]
      by_cases h : k0 = k'
      · subst h
        simp [alGet_cons, if_neg (fun h' : k0 = k => h0 h')]
      · simp [alGet_cons, h, ih]

theorem alGet_alDelete {α : Type} (m : List (String × α)) (k k' : String) :
    alGet (alDelete m k) k' = if k' = k then none else alGet m k' := by
  induction m with
  | nil => simp [alDelete, alGet_nil]
  | cons p rest ih =>
    obtain ⟨k0, v0⟩ := p
    by_cases h0 : k0 = k
    · subst h0
      by_cases h : k0 = k'
      · subst h
        simp [alDelete, ih]
      · simp [alDelete, alGet_cons, h, ih]
    · by_cases h : k0 = k'
      · subst h
        simp [alDelete, alGet_cons, h0, ih, fun h' : k0 = k => h0 h']
      · simp [alDelete, alGet_cons, h0, h, ih]

theorem BOM.add_tracked (s : BOMState) (pn : String) (q pq : Int)
    (h : alGet s.items pn = some pq) :
    BOM.add s pn q = ({ s with items := alSet s.items pn (pq + q) }, true) := by
  unfold BOM.add
  rw [h]

theorem BOM.add_untracked_ok (s : BOMState) (pn : String) (q : Int)
    (d : QueryDetails) (h : alGet s.items pn = none) (hl : s.lookup pn = some d) :
    BOM.add s pn q =
      ({ s with items := alSet s.items pn q,
                details := alSet s.details pn ⟨pn, q, d⟩,
                lookupLog := s.lookupLog ++ [pn] }, true) := by
  unfold BOM.add
  rw [h, hl]

theorem BOM.add_untracked_fail (s : BOMState) (pn : String) (q : Int)
    (h : alGet s.items pn = none) (hl : s.lookup pn = none) :
    BOM.add s pn q =
      ({ s with items := alSet s.items pn q,
                lookupLog := s.lookupLog ++ [pn] }, false) := by
  unfold BOM.add
  rw [h, hl]

theorem BOM.set_tracked_del (s : BOMState) (pn : String) (q : Int)
    (h : (alGet s.items pn).isSome) (hq : q ≤ 0) :
    BOM.set s pn q =
      ({ s with items := alDelete s.items pn, details := alDelete s.details pn }, true) := by
  unfold BOM.set
  rw [if_pos h, if_pos hq]

theorem BOM.set_tracked_upd (s : BOMState) (pn : String) (q : Int)
    (h : (alGet s.items pn).isSome) (hq : ¬ q ≤ 0) :
    BOM.set s pn q = ({ s with items := alSet s.items pn q }, true) := by
  unfold BOM.set
  rw [if_pos h, if_neg hq]

theorem BOM.set_untracked_ok (s : BOMState) (pn : String) (q : Int)
    (d : QueryDetails) (h : alGet s.items pn = none) (hq : 0 < q)
    (hl : s.lookup pn = some d) :
    BOM.set s pn q =
      ({ s with items := alSet s.items pn q,
                details := alSet s.details pn ⟨pn, q, d⟩,
                lookupLog := s.lookupLog ++ [pn] }, true) := by
  unfold BOM.set
  rw [if_neg (by simp [h]), if_pos hq, hl]

theorem BOM.set_untracked_fail (s : BOMState) (pn : String) (q : Int)
    (h : alGet s.items pn = none) (hq : 0 < q) (hl : s.lookup pn = none) :
    BOM.set s pn q =
      ({ s with items := alSet s.items pn q,
                lookupLog := s.lookupLog ++ [pn] }, false) := by
  unfold BOM.set
  rw [if_neg (by simp [h]), if_pos hq, hl]

theorem BOM.set_untracked_noop (s : BOMState) (pn : String) (q : Int)
    (h : alGet s.items pn = none) (hq : ¬ 0 < q) :
    BOM.set s pn q = (s, true) := by
  unfold BOM.set
  rw [if_neg (by simp [h]), if_neg hq]

theorem BOM.remove_del (s : BOMState) (pn : String) (qty : Option Int)
    (h : qty = none ∨ (alGet s.items pn).getD 0 - qty.getD 0 ≤ 0) :
    BOM.remove s pn qty =
      { s with items := alDelete s.items pn, details := alDelete s.details pn } := by
  unfold BOM.remove
  rw [if_pos h]

theorem BOM.remove_upd (s : BOMState) (pn : String) (qty : Option Int)
    (h : ¬ (qty = none ∨ (alGet s.items pn).getD 0 - qty.getD 0 ≤ 0)) :
    BOM.remove s pn qty =
      { s with items := alSet s.items pn ((alGet s.items pn).getD 0 - qty.getD 0) } := by
  unfold BOM.remove
  rw [if_neg h]

theorem BOM.add_lookup (s : BOMState) (pn : String) (q : Int) :
    (BOM.add s pn q).1.lookup = s.lookup := by
  cases htr : alGet s.items pn with
  | some pq => rw [BOM.add_tracked s pn q pq htr]
  | none =>
    cases hl : s.lookup pn with
    | some d => rw [BOM.add_untracked_ok s pn q d htr hl]
    | none => rw [BOM.add_untracked_fail s pn q htr hl]

theorem foldl_filter {α β : Type} (p : α → Bool) (f : β → α → β) :
    ∀ (l : List α) (b : β),
      (l.filter p).foldl f b = l.foldl (fun st a => if p a then f st a else st) b := by
  intro l
  induction l with
  | nil => intro b; rfl
  | cons a rest ih =>
    intro b
    cases h : p a <;> simp [List.filter_cons, h, ih]

theorem buildFromTemplate_eq {σ : Type} (evalIncl : String → σ → Bool)
    (evalQty : String → σ → Int) (s : BOMState) (tmpl : List TemplateEntry) (sc : σ) :
    BOM.buildFromTemplate evalIncl evalQty s tmpl sc =
      (addAll evalQty (clearState s) (includedEntries evalIncl tmpl sc) sc,
       (addAll evalQty (clearState s) (includedEntries evalIncl tmpl sc) sc).items) := by
  unfold BOM.buildFromTemplate addAll includedEntries clearState
  rw [foldl_filter]

theorem inv_mk (lookup : String → Option QueryDetails) :
    BOM.invariantHolds (BOM.mk lookup) := by
  constructor
  · intro pn
    simp [BOM.mk, alGet_nil]
  · intro pn q h
    simp [BOM.mk, alGet_nil] at h

theorem inv_clear (s : BOMState) : BOM.invariantHolds (clearState s) := by
  constructor
  · intro pn
    simp [clearState, alGet_nil]
  · intro pn q h
    simp [clearState, alGet_nil] at h

theorem inv_add (s : BOMState) (pn : String) (q : Int)
    (h : BOM.invariantHolds s) (hq : 0 < q)
    (hlk : alGet s.items pn = none → (s.lookup pn).isSome) :
    BOM.invariantHolds (BOM.add s pn q).1 := by
  obtain ⟨hkeys, hpos⟩ := h
  cases htr : alGet s.items pn with
  | some pq =>
    rw [BOM.add_tracked s pn q pq htr]
    constructor
    · intro pn'
      simp only [alGet_alSet]
      by_cases hp : pn' = pn
      · subst hp
        have hd : (alGet s.details pn').isSome := (hkeys pn').mp (by simp [htr])
        simp [hd]
      · simp only [if_neg hp]
        exact hkeys pn'
    · intro pn' q' hq'
      rw [alGet_alSet] at hq'
      by_cases hp : pn' = pn
      · rw [if_pos hp] at hq'
        have h1 : 0 < pq := hpos pn pq htr
        have h2 : q' = pq + q := by
          exact Option.some.inj hq'.symm
        omega
      · rw [if_neg hp] at hq'
        exact hpos pn' q' hq'
  | none =>
    obtain ⟨d, hd⟩ := Option.isSome_iff_exists.mp (hlk htr)
    rw [BOM.add_untracked_ok s pn q d htr hd]
    constructor
    · intro pn'
      simp only [alGet_alSet]
      by_cases hp : pn' = pn
      · simp [hp]
      · simp only [if_neg hp]
        exact hkeys pn'
    · intro pn' q' hq'
      rw [alGet_alSet] at hq'
      by_cases hp : pn' = pn
      · rw [if_pos hp] at hq'
        have : q' = q := Option.some.inj hq'.symm
        omega
      · rw [if_neg hp] at hq'
        exact hpos pn' q' hq'

theorem inv_set (s : BOMState) (pn : String) (q : Int)
    (h : BOM.invariantHolds s)
    (hlk : alGet s.items pn = none → 0 < q → (s.lookup pn).isSome) :
    BOM.invariantHolds (BOM.set s pn q).1 := by
  obtain ⟨hkeys, hpos⟩ := h
  cases htr : alGet s.items pn with
  | some pq =>
    by_cases hq : q ≤ 0
    · rw [BOM.set_tracked_del s pn q (by simp [htr]) hq]
      constructor
      · intro pn'
        simp only [alGet_alDelete]
        by_cases hp : pn' = pn
        · simp [hp]
        · simp only [if_neg hp]
          exact hkeys pn'
      · intro pn' q' hq'
        rw [alGet_alDelete] at hq'
        by_cases hp : pn' = pn
        · rw [if_pos hp] at hq'
          exact absurd hq' (by simp)
        · rw [if_neg hp] at hq'
          exact hpos pn' q' hq'
    · rw [BOM.set_tracked_upd s pn q (by simp [htr]) hq]
      constructor
      · intro pn'
        simp only [alGet_alSet]
        by_cases hp : pn' = pn
        · subst hp
          have hd : (alGet s.details pn').isSome := (hkeys pn').mp (by simp [htr])
          simp [hd]
        · simp only [if_neg hp]
          exact hkeys pn'
      · intro pn' q' hq'
        rw [alGet_alSet] at hq'
        by_cases hp : pn' = pn
        · rw [if_pos hp] at hq'
          have : q' = q := Option.some.inj hq'.symm
          omega
        · rw [if_neg hp] at hq'
          exact hpos pn' q' hq'
  | none =>
    by_cases hq : 0 < q
    · obtain ⟨d, hd⟩ := Option.isSome_iff_exists.mp (hlk htr hq)
      rw [BOM.set_untracked_ok s pn q d htr hq hd]
      constructor
      · intro pn'
        simp only [alGet_alSet]
        by_cases hp : pn' = pn
        · simp [hp]
        · simp only [if_neg hp]
          exact hkeys pn'
      · intro pn' q' hq'
        rw [alGet_alSet] at hq'
        by_cases hp : pn' = pn
        · rw [if_pos hp] at hq'
          have : q' = q := Option.some.inj hq'.symm
          omega
        · rw [if_neg hp] at hq'
          exact hpos pn' q' hq'
    · rw [BOM.set_untracked_noop s pn q htr hq]
      exact ⟨hkeys, hpos⟩

theorem inv_remove (s : BOMState) (pn : String) (qty : Option Int)
    (h : BOM.invariantHolds s)
    (hc : ∀ q, qty = some q → (alGet s.items pn).isSome ∨ 0 ≤ q) :
    BOM.invariantHolds (BOM.remove s pn qty) := by
  obtain ⟨hkeys, hpos⟩ := h
  have hdel : BOM.invariantHolds
      { s with items := alDelete s.items pn, details := alDelete s.details pn } := by
    constructor
    · intro pn'
      simp only [alGet_alDelete]
      by_cases hp : pn' = pn
      · simp [hp]
      · simp only [if_neg hp]
        exact hkeys pn'
    · intro pn' q' hq'
      rw [alGet_alDelete] at hq'
      by_cases hp : pn' = pn
      · rw [if_pos hp] at hq'
        exact absurd hq' (by simp)
      · rw [if_neg hp] at hq'
        exact hpos pn' q' hq'
  cases qty with
  | none => rw [BOM.remove_del s pn none (Or.inl rfl)]; exact hdel
  | some q0 =>
    cases htr : alGet s.items pn with
    | some pq =>
      by_cases hle : pq - q0 ≤ 0
      · rw [BOM.remove_del s pn (some q0) (Or.inr (by simp [htr, hle]))]
        exact hdel
      · rw [BOM.remove_upd s pn (some q0) (by simp [htr, hle])]
        constructor
        · intro pn'
          simp only [alGet_alSet, htr]
          by_cases hp : pn' = pn
          · subst hp
            have hd : (alGet s.details pn').isSome := (hkeys pn').mp (by simp [htr])
            simp [hd]
          · simp only [if_neg hp]
            exact hkeys pn'
        · intro pn' q' hq'
          rw [alGet_alSet] at hq'
          by_cases hp : pn' = pn
          · rw [if_pos hp] at hq'
            have : q' = (alGet s.items pn).getD 0 - (some q0).getD 0 :=
              Option.some.inj hq'.symm
            simp [htr] at this
            omega
          · rw [if_neg hp] at hq'
            exact hpos pn' q' hq'
    | none =>
      have h0 : 0 ≤ q0 := by
        rcases hc q0 rfl with h1 | h1
        · rw [htr] at h1; exact absurd h1 (by simp)
        · exact h1
      rw [BOM.remove_del s pn (some q0) (Or.inr (by simp [htr]; omega))]
      exact hdel

theorem inv_addAll {σ : Type} (evalQty : String → σ → Int) (sc : σ) :
    ∀ (entries : List TemplateEntry) (st : BOMState),
      BOM.invariantHolds st →
      (∀ e ∈ entries, 0 < evalQty (qtyExpr e) sc ∧ (st.lookup e.partNumber).isSome) →
      BOM.invariantHolds (addAll evalQty st entries sc) := by
  intro entries
  induction entries with
  | nil => intro st h _; exact h
  | cons e rest ih =>
    intro st h hc
    have he := hc e (List.mem_cons_self e rest)
    have hstep : BOM.invariantHolds (BOM.add st e.partNumber (evalQty (qtyExpr e) sc)).1 :=
      inv_add st e.partNumber _ h he.1 (fun _ => he.2)
    have hlk : (BOM.add st e.partNumber (evalQty (qtyExpr e) sc)).1.lookup = st.lookup :=
      BOM.add_lookup st e.partNumber _
    have : addAll evalQty st (e :: rest) sc =
        addAll evalQty (BOM.add st e.partNumber (evalQty (qtyExpr e) sc)).1 rest sc := rfl
    rw [this]
    refine ih _ hstep ?_
    intro e' he'
    refine ⟨(hc e' (List.mem_cons_of_mem e he')).1, ?_⟩
    rw [hlk]
    exact (hc e' (List.mem_cons_of_mem e he')).2

/-- `_details` keys are always a subset of `_items` keys (stated in the
contrapositive): no operation ever writes a detail record for an untracked
part number without also inserting its quantity. -/
def BOM.detailsWithinItems (s : BOMState) : Prop :=
  ∀ pn, alGet s.items pn = none → alGet s.details pn = none

theorem bomSub_add (s : BOMState) (pn : String) (q : Int)
    (h : BOM.detailsWithinItems s) :
    BOM.detailsWithinItems (BOM.add s pn q).1 := by
  cases htr : alGet s.items pn with
  | some pq =>
    rw [BOM.add_tracked s pn q pq htr]
    intro pn' hp
    rw [alGet_alSet] at hp
    by_cases hpp : pn' = pn
    · rw [if_pos hpp] at hp; exact absurd hp (by simp)
    · rw [if_neg hpp] at hp
      exact h pn' hp
  | none =>
    cases hl : s.lookup pn with
    | some d =>
      rw [BOM.add_untracked_ok s pn q d htr hl]
      intro pn' hp
      rw [alGet_alSet] at hp
      by_cases hpp : pn' = pn
      · rw [if_pos hpp] at hp; exact absurd hp (by simp)
      · rw [if_neg hpp] at hp
        rw [alGet_alSet, if_neg hpp]
        exact h pn' hp
    | none =>
      rw [BOM.add_untracked_fail s pn q htr hl]
      intro pn' hp
      rw [alGet_alSet] at hp
      by_cases hpp : pn' = pn
      · rw [if_pos hpp] at hp; exact absurd hp (by simp)
      · rw [if_neg hpp] at hp
        exact h pn' hp

theorem bomSub_set (s : BOMState) (pn : String) (q : Int)
    (h : BOM.detailsWithinItems s) :
    BOM.detailsWithinItems (BOM.set s pn q).1 := by
  cases htr : alGet s.items pn with
  | some pq =>
    by_cases hq : q ≤ 0
    · rw [BOM.set_tracked_del s pn q (by simp [htr]) hq]
      intro pn' hp
      rw [alGet_alDelete]
      by_cases hpp : pn' = pn
      · simp [hpp]
      · rw [if_neg hpp]
        rw [alGet_alDelete, if_neg hpp] at hp
        exact h pn' hp
    · rw [BOM.set_tracked_upd s pn q (by simp [htr]) hq]
      intro pn' hp
      rw [alGet_alSet] at hp
      by_cases hpp : pn' = pn
      · rw [if_pos hpp] at hp; exact absurd hp (by simp)
      · rw [if_neg hpp] at hp
        exact h pn' hp
  | none =>
    by_cases hq : 0 < q
    · cases hl : s.lookup pn with
      | some d =>
        rw [BOM.set_untracked_ok s pn q d htr hq hl]
        intro pn' hp
        rw [alGet_alSet] at hp
        by_cases hpp : pn' = pn
        · rw [if_pos hpp] at hp; exact absurd hp (by simp)
        · rw [if_neg hpp] at hp
          rw [alGet_alSet, if_neg hpp]
          exact h pn' hp
      | none =>
        rw [BOM.set_untracked_fail s pn q htr hq hl]
        intro pn' hp
        rw [alGet_alSet] at hp
        by_cases hpp : pn' = pn
        · rw [if_pos hpp] at hp; exact absurd hp (by simp)
        · rw [if_neg hpp] at hp
          exact h pn' hp
    · rw [BOM.set_untracked_noop s pn q htr hq]
      exact h

theorem bomSub_remove (s : BOMState) (pn : String) (qty : Option Int)
    (h : BOM.detailsWithinItems s) :
    BOM.detailsWithinItems (BOM.remove s pn qty) := by
  unfold BOM.remove
  by_cases hc : qty = none ∨ (alGet s.items pn).getD 0 - qty.getD 0 ≤ 0
  · rw [if_pos hc]
    intro pn' hp
    rw [alGet_alDelete]
    by_cases hpp : pn' = pn
    · simp [hpp]
    · rw [if_neg hpp]
      rw [alGet_alDelete, if_neg hpp] at hp
      exact h pn' hp
  · rw [if_neg hc]
    intro pn' hp
    rw [alGet_alSet] at hp
    by_cases hpp : pn' = pn
    · rw [if_pos hpp] at hp; exact absurd hp (by simp)
    · rw [if_neg hpp] at hp
      exact h pn' hp

theorem bomSub_addAll {σ : Type} (evalQty : String → σ → Int) (sc : σ) :
    ∀ (entries : List TemplateEntry) (st : BOMState),
      BOM.detailsWithinItems st →
      BOM.detailsWithinItems (addAll evalQty st entries sc) := by
  intro entries
  induction entries with
  | nil => intro st h; exact h
  | cons e rest ih =>
    intro st h
    exact ih _ (bomSub_add st e.partNumber _ h)

theorem reach_sub (s : BOMState) (h : Reach s) : BOM.detailsWithinItems s := by
  induction h with
  | init lookup =>
    intro pn _
    simp [BOM.mk, alGet_nil]
  | add s pn q _ ih => exact bomSub_add s pn q ih
  | set s pn q _ ih => exact bomSub_set s pn q ih
  | remove s pn qty _ ih => exact bomSub_remove s pn qty ih
  | build evalIncl evalQty s tmpl sc _ ih =>
    rw [buildFromTemplate_eq]
    refine bomSub_addAll evalQty sc _ (clearState s) ?_
    intro pn _
    simp [clearState, alGet_nil]

/-- C1 (counterexample): the claim "for every reachable state whose detail
lookups have all resolved, `_items` and `_details` have identical key sets
and no part number with quantity ≤ 0 exists" is false as stated: the state
reached from a fresh instance by the single call `remove("A", -1)` (an
operation that performs no detail lookup at all, so every lookup trivially
resolved) has "A" in `_items` with quantity 1 but not in `_details`. -/
theorem bom_c1_counterexample :
    ReachResolved exStateRemoveNeg ∧ ¬ BOM.invariantHolds exStateRemoveNeg := by
  constructor
  · exact ReachResolved.remove (BOM.mk lookup10) "A" (some (-1))
      (ReachResolved.init lookup10)
  · intro hinv
    have h1 := (hinv.1 "A").mp (by decide)
    exact absurd h1 (by decide)

/-- C1 (amended): for every state reached by constructor, `add`, `set`,
`remove` and `buildFromTemplate` operations whose triggered detail lookups
all resolve, AND where every quantity passed to `add` (directly or as an
evaluated template quantity) is positive and `remove` is never called with a
negative explicit quantity on an untracked part number, the `_items` and
`_details` maps have identical key sets and every tracked quantity is
strictly positive. -/
theorem bom_c1_invariant (s : BOMState) (h : ReachGood s) :
    BOM.invariantHolds s := by
  induction h with
  | init lookup => exact inv_mk lookup
  | add s pn q _ hq hlk ih => exact inv_add s pn q ih hq hlk
  | set s pn q _ hlk ih => exact inv_set s pn q ih hlk
  | remove s pn qty _ hc ih => exact inv_remove s pn qty ih hc
  | build evalIncl evalQty s tmpl sc _ hc ih =>
    rw [buildFromTemplate_eq]
    exact inv_addAll evalQty sc _ (clearState s) (inv_clear s) hc

/-- C1 witness: the amended invariant at the concrete state reached by
`add("A", 1)` on a fresh instance. -/
theorem bom_c1_witness :
    BOM.invariantHolds (BOM.add (BOM.mk lookup10) "A" 1).1 :=
  bom_c1_invariant _
    (ReachGood.add (BOM.mk lookup10) "A" 1 (ReachGood.init lookup10)
      (by decide) (fun _ => by decide))

theorem foldl_add_eq_sum {α : Type} (f : α → Int) :
    ∀ (l : List α) (a : Int),
      l.foldl (fun acc x => acc + f x) a = a + (l.map f).sum := by
  intro l
  induction l with
  | nil => intro a; simp
  | cons x xs ih =>
    intro a
    simp [List.foldl_cons, List.map_cons, List.sum_cons, ih, add_assoc]

/-- C2: `getTotalCost()` equals the sum over all tracked part numbers of
quantity × cached `unitCost`, a missing (or, in the model, non-numeric)
unit value contributing zero, and `getTotalWeight()` is the analogous sum
over `unitWeight`; both are total functions of the state, so no error can be
raised.  Three parts each with unit cost 10 at quantity 1 give total cost
30. -/
theorem bom_c2 (s : BOMState) :
    BOM.getTotalCost s = specTotalCost s ∧
    BOM.getTotalWeight s = specTotalWeight s ∧
    BOM.getTotalCost exState3 = 30 := by
  refine ⟨?_, ?_, by decide⟩
  · unfold BOM.getTotalCost specTotalCost
    rw [foldl_add_eq_sum
      (fun p => (((alGet s.details p.1).bind (fun d => d.info.unitCost)).getD 0) * p.2)
      s.items 0]
    rw [zero_add]
    congr 1
    exact List.map_congr_left (fun p _ => mul_comm _ _)
  · unfold BOM.getTotalWeight specTotalWeight
    rw [foldl_add_eq_sum
      (fun p => (((alGet s.details p.1).bind (fun d => d.info.unitWeight)).getD 0) * p.2)
      s.items 0]
    rw [zero_add]
    congr 1
    exact List.map_congr_left (fun p _ => mul_comm _ _)

theorem add_untracked_items_log (s : BOMState) (pn : String) (q : Int)
    (h : alGet s.items pn = none) :
    alGet (BOM.add s pn q).1.items pn = some q ∧
    (BOM.add s pn q).1.lookupLog = s.lookupLog ++ [pn] := by
  cases hl : s.lookup pn with
  | some d =>
    rw [BOM.add_untracked_ok s pn q d h hl]
    exact ⟨by rw [alGet_alSet, if_pos rfl], rfl⟩
  | none =>
    rw [BOM.add_untracked_fail s pn q h hl]
    exact ⟨by rw [alGet_alSet, if_pos rfl], rfl⟩

theorem add_tracked_items_log (s : BOMState) (pn : String) (q pq : Int)
    (h : alGet s.items pn = some pq) :
    alGet (BOM.add s pn q).1.items pn = some (pq + q) ∧
    (BOM.add s pn q).1.lookupLog = s.lookupLog := by
  rw [BOM.add_tracked s pn q pq h]
  exact ⟨by rw [alGet_alSet, if_pos rfl], rfl⟩

theorem addMany_tracked (pn : String) :
    ∀ (qs : List Int) (st : BOMState) (a : Int), alGet st.items pn = some a →
      alGet (BOM.addMany st pn qs).items pn = some (a + qs.sum) ∧
      (BOM.addMany st pn qs).lookupLog = st.lookupLog := by
  intro qs
  induction qs with
  | nil => intro st a h; simpa [BOM.addMany] using h
  | cons q rest ih =>
    intro st a h
    have hstep := add_tracked_items_log st pn q a h
    have hrec := ih (BOM.add st pn q).1 (a + q) hstep.1
    have hdef : BOM.addMany st pn (q :: rest) = BOM.addMany (BOM.add st pn q).1 pn rest := rfl
    rw [hdef]
    constructor
    · rw [hrec.1]
      congr 1
      simp [add_assoc]
    · rw [hrec.2, hstep.2]

/-- C3: starting from any state in which the part number is untracked,
calling `add` twice stores the sum of the two quantities, and over any
non-empty sequence of `add` calls on that part number the user query
function is invoked exactly once for it (the ghost `lookupLog` gains exactly
one occurrence). -/
theorem bom_c3 (s : BOMState) (pn : String) (h0 : alGet s.items pn = none) :
    (∀ q1 q2 : Int,
      alGet (BOM.add (BOM.add s pn q1).1 pn q2).1.items pn = some (q1 + q2)) ∧
    (∀ qs : List Int, qs ≠ [] →
      alGet (BOM.addMany s pn qs).items pn = some qs.sum ∧
      (BOM.addMany s pn qs).lookupLog.count pn = s.lookupLog.count pn + 1) := by
  constructor
  · intro q1 q2
    have h1 := add_untracked_items_log s pn q1 h0
    exact (add_tracked_items_log (BOM.add s pn q1).1 pn q2 q1 h1.1).1
  · intro qs hne
    cases qs with
    | nil => exact absurd rfl hne
    | cons q rest =>
      have h1 := add_untracked_items_log s pn q h0
      have hrec := addMany_tracked pn rest (BOM.add s pn q).1 q h1.1
      have hdef : BOM.addMany s pn (q :: rest) = BOM.addMany (BOM.add s pn q).1 pn rest := rfl
      rw [hdef]
      constructor
      · rw [hrec.1, List.sum_cons]
      · rw [hrec.2, h1.2]
        simp

/-- C3 witness: two `add` calls on a fresh instance with quantities 1 and 2;
the stored quantity is 3 and the lookup log holds one occurrence of "A". -/
theorem bom_c3_witness :
    alGet (BOM.add (BOM.add (BOM.mk lookup10) "A" 1).1 "A" 2).1.items "A" = some (1 + 2) ∧
    alGet (BOM.addMany (BOM.mk lookup10) "A" [1, 2]).items "A" = some ([1, 2] : List Int).sum ∧
    (BOM.addMany (BOM.mk lookup10) "A" [1, 2]).lookupLog.count "A" =
      (BOM.mk lookup10).lookupLog.count "A" + 1 :=
  ⟨(bom_c3 (BOM.mk lookup10) "A" rfl).1 1 2,
   ((bom_c3 (BOM.mk lookup10) "A" rfl).2 [1, 2] (by simp)).1,
   ((bom_c3 (BOM.mk lookup10) "A" rfl).2 [1, 2] (by simp)).2⟩

/-- C4: for every reachable state, every part number and every quantity
q ≤ 0, `set(pn, q)` leaves `pn` absent from `_items`, makes
`getDetails(pn)` resolve to `undefined`, and is a no-op when `pn` is
untracked. -/
theorem bom_c4 (s : BOMState) (pn : String) (q : Int)
    (hr : Reach s) (hq : q ≤ 0) :
    alGet (BOM.set s pn q).1.items pn = none ∧
    BOM.getDetails (BOM.set s pn q).1 pn = none ∧
    (alGet s.items pn = none → (BOM.set s pn q).1 = s) := by
  have hsub := reach_sub s hr
  cases htr : alGet s.items pn with
  | some pq =>
    rw [BOM.set_tracked_del s pn q (by simp [htr]) hq]
    refine ⟨?_, ?_, ?_⟩
    · rw [alGet_alDelete, if_pos rfl]
    · unfold BOM.getDetails
      rw [alGet_alDelete, if_pos rfl]
    · intro hc
      exact absurd hc (by simp)
  | none =>
    rw [BOM.set_untracked_noop s pn q htr (by omega)]
    exact ⟨htr, hsub pn htr, fun _ => rfl⟩

/-- C4 witness: `set("A", 0)` on the reachable state holding "A" at
quantity 2. -/
theorem bom_c4_witness :
    alGet (BOM.set exStateA "A" 0).1.items "A" = none ∧
    BOM.getDetails (BOM.set exStateA "A" 0).1 "A" = none ∧
    (alGet exStateA.items "A" = none → (BOM.set exStateA "A" 0).1 = exStateA) :=
  bom_c4 exStateA "A" 0
    (Reach.add (BOM.mk lookup10) "A" 2 (Reach.init lookup10)) (by decide)

theorem resolveAll_fail (L : String → Option QueryDetails) :
    ∀ (l : List (String × Int)) (pn : String),
      pn ∈ l.map Prod.fst → L pn = none → resolveAll l L = none := by
  intro l
  induction l with
  | nil => intro pn hmem _; simp at hmem
  | cons hd rest ih =>
    intro pn hmem hl
    obtain ⟨p, q⟩ := hd
    unfold resolveAll
    cases hp : L p with
    | none => rfl
    | some d =>
      have hmem' : pn ∈ rest.map Prod.fst := by
        rcases (by simpa using hmem) with h | h
        · subst h
          rw [hl] at hp
          exact absurd hp (by simp)
        · simpa using h
      rw [ih pn hmem' hl]
      rfl

theorem alGet_foldl_not_mem (base : List (String × BOMItemDetails)) (pn : String) :
    ∀ ds : List BOMItemDetails, pn ∉ ds.map (fun d => d.partNumber) →
      alGet ((ds.foldl (fun m d => alSet m d.partNumber d) base)) pn = alGet base pn := by
  intro ds
  induction ds generalizing base with
  | nil => intro _; rfl
  | cons d rest ih =>
    intro hmem
    have h1 : pn ∉ rest.map (fun d => d.partNumber) := by
      intro hc
      exact hmem (by simp [hc])
    have h2 : d.partNumber ≠ pn := by
      intro hc
      exact hmem (by simp [hc])
    have := ih (alSet base d.partNumber d) h1
    calc alGet (((d :: rest).foldl (fun m x => alSet m x.partNumber x) base)) pn
        = alGet ((rest.foldl (fun m x => alSet m x.partNumber x) (alSet base d.partNumber d))) pn := rfl
      _ = alGet (alSet base d.partNumber d) pn := this
      _ = alGet base pn := by rw [alGet_alSet, if_neg (fun h => h2 h.symm)]

theorem resolveAll_ok (L : String → Option QueryDetails) :
    ∀ (l : List (String × Int)),
      (∀ pn ∈ l.map Prod.fst, (L pn).isSome) →
      (l.map Prod.fst).Nodup →
      ∃ ds, resolveAll l L = some ds ∧
        ds.map (fun d => d.partNumber) = l.map Prod.fst ∧
        ∀ (base : List (String × BOMItemDetails)) (pn : String) (q : Int),
          alGet l pn = some q →
          ∃ d, L pn = some d ∧
            alGet (ds.foldl (fun m x => alSet m x.partNumber x) base) pn =
              some ⟨pn, q, d⟩ := by
  intro l
  induction l with
  | nil =>
    intro _ _
    refine ⟨[], rfl, rfl, ?_⟩
    intro base pn q hget
    simp [alGet_nil] at hget
  | cons hd rest ih =>
    intro hall hnd
    obtain ⟨p, q0⟩ := hd
    have hp : (L p).isSome := hall p (by simp)
    obtain ⟨d0, hd0⟩ := Option.isSome_iff_exists.mp hp
    have hall' : ∀ pn ∈ rest.map Prod.fst, (L pn).isSome := by
      intro pn hmem
      exact hall pn (by simp [hmem])
    have hnd' : (rest.map Prod.fst).Nodup := by
      simpa using (List.nodup_cons.mp (by simpa using hnd)).2
    have hpnotin : p ∉ rest.map Prod.fst := by
      exact (List.nodup_cons.mp (by simpa using hnd)).1
    obtain ⟨ds', hds', hmap', hchar'⟩ := ih hall' hnd'
    refine ⟨⟨p, q0, d0⟩ :: ds', ?_, ?_, ?_⟩
    · unfold resolveAll
      rw [hd0, hds']
      rfl
    · simp [hmap']
    · intro base pn q hget
      rw [alGet_cons] at hget
      by_cases hpp : p = pn
      · subst hpp
        rw [if_pos rfl] at hget
        have hq : q = q0 := (Option.some.inj hget).symm
        subst hq
        refine ⟨d0, hd0, ?_⟩
        have hfold : ((⟨p, q, d0⟩ : BOMItemDetails) :: ds').foldl
            (fun m x => alSet m x.partNumber x) base =
            ds'.foldl (fun m x => alSet m x.partNumber x) (alSet base p ⟨p, q, d0⟩) := rfl
        rw [hfold]
        rw [alGet_foldl_not_mem _ p ds' (by rw [hmap']; exact hpnotin)]
        rw [alGet_alSet, if_pos rfl]
      · rw [if_neg hpp] at hget
        obtain ⟨d, hd, hchar⟩ := hchar' (alSet base p ⟨p, q0, d0⟩) pn q hget
        exact ⟨d, hd, hchar⟩

/-- C5: if any single lookup started by `refresh()` rejects, the whole
refresh rejects and `_details` is left completely unchanged; if every lookup
fulfills, the refresh fulfills and every tracked part number's detail record
is replaced by its freshly resolved result merged with the part number and
current quantity. -/
theorem bom_c5 (s : BOMState) (hnd : (s.items.map Prod.fst).Nodup) :
    ((∃ pn, pn ∈ s.items.map Prod.fst ∧ s.lookup pn = none) →
      (BOM.refresh s).2 = false ∧ (BOM.refresh s).1.details = s.details) ∧
    ((∀ pn ∈ s.items.map Prod.fst, (s.lookup pn).isSome) →
      (BOM.refresh s).2 = true ∧
      ∀ pn q, alGet s.items pn = some q →
        ∃ d, s.lookup pn = some d ∧
          alGet (BOM.refresh s).1.details pn = some ⟨pn, q, d⟩) := by
  constructor
  · rintro ⟨pn, hmem, hl⟩
    have hres := resolveAll_fail s.lookup s.items pn hmem hl
    unfold BOM.refresh
    rw [hres]
    exact ⟨rfl, rfl⟩
  · intro hall
    obtain ⟨ds, hds, _, hchar⟩ := resolveAll_ok s.lookup s.items hall hnd
    unfold BOM.refresh
    rw [hds]
    refine ⟨rfl, ?_⟩
    intro pn q hget
    obtain ⟨d, hd, hchar'⟩ := hchar s.details pn q hget
    exact ⟨d, hd, hchar'⟩

/-- C5 witness: a rejecting refresh on a state whose only tracked part has a
failing lookup leaves `_details` unchanged, and a fulfilling refresh on a
state tracking "A" at quantity 2 replaces its record from the resolved
batch. -/
theorem bom_c5_witness :
    ((BOM.refresh exStateFail).2 = false ∧
      (BOM.refresh exStateFail).1.details = exStateFail.details) ∧
    ((BOM.refresh exStateA).2 = true ∧
      ∀ pn q, alGet exStateA.items pn = some q →
        ∃ d, exStateA.lookup pn = some d ∧
          alGet (BOM.refresh exStateA).1.details pn = some ⟨pn, q, d⟩) :=
  ⟨(bom_c5 exStateFail (by decide)).1 ⟨"A", by decide, rfl⟩,
   (bom_c5 exStateA (by decide)).2 (by decide)⟩

/-- C6: for a previously-absent part number whose lookup rejects, `add`
(and `set` with a positive quantity) rejects, leaves the part number absent
from `_details`, but has already inserted its quantity into `_items` — the
insertion is not rolled back, so the two maps are inconsistent. -/
theorem bom_c6 (s : BOMState) (pn : String) (q : Int)
    (hi : alGet s.items pn = none) (hd : alGet s.details pn = none)
    (hlk : s.lookup pn = none) :
    ((BOM.add s pn q).2 = false ∧
      alGet (BOM.add s pn q).1.items pn = some q ∧
      alGet (BOM.add s pn q).1.details pn = none) ∧
    (0 < q →
      (BOM.set s pn q).2 = false ∧
      alGet (BOM.set s pn q).1.items pn = some q ∧
      alGet (BOM.set s pn q).1.details pn = none) := by
  constructor
  · rw [BOM.add_untracked_fail s pn q hi hlk]
    exact ⟨rfl, by rw [alGet_alSet, if_pos rfl], hd⟩
  · intro hq
    rw [BOM.set_untracked_fail s pn q hi hq hlk]
    exact ⟨rfl, by rw [alGet_alSet, if_pos rfl], hd⟩

/-- C6 witness: adding (or setting) part "A" at quantity 1 on a fresh
instance whose query function always rejects. -/
theorem bom_c6_witness :
    (((BOM.add (BOM.mk lookupFail) "A" 1).2 = false ∧
      alGet (BOM.add (BOM.mk lookupFail) "A" 1).1.items "A" = some 1 ∧
      alGet (BOM.add (BOM.mk lookupFail) "A" 1).1.details "A" = none) ∧
    (0 < (1 : Int) →
      (BOM.set (BOM.mk lookupFail) "A" 1).2 = false ∧
      alGet (BOM.set (BOM.mk lookupFail) "A" 1).1.items "A" = some 1 ∧
      alGet (BOM.set (BOM.mk lookupFail) "A" 1).1.details "A" = none)) :=
  bom_c6 (BOM.mk lookupFail) "A" 1 rfl rfl rfl

theorem add_congr_fields (s t : BOMState) (pn : String) (q : Int)
    (h1 : s.lookup = t.lookup) (h2 : s.items = t.items) (h3 : s.details = t.details) :
    (BOM.add s pn q).1.lookup = (BOM.add t pn q).1.lookup ∧
    (BOM.add s pn q).1.items = (BOM.add t pn q).1.items ∧
    (BOM.add s pn q).1.details = (BOM.add t pn q).1.details := by
  cases htr : alGet t.items pn with
  | some pq =>
    rw [BOM.add_tracked s pn q pq (by rw [h2]; exact htr),
        BOM.add_tracked t pn q pq htr]
    exact ⟨h1, by rw [h2], h3⟩
  | none =>
    cases hl : t.lookup pn with
    | some d =>
      rw [BOM.add_untracked_ok s pn q d (by rw [h2]; exact htr) (by rw [h1]; exact hl),
          BOM.add_untracked_ok t pn q d htr hl]
      exact ⟨h1, by rw [h2], by rw [h3]⟩
    | none =>
      rw [BOM.add_untracked_fail s pn q (by rw [h2]; exact htr) (by rw [h1]; exact hl),
          BOM.add_untracked_fail t pn q (htr) hl]
      exact ⟨h1, by rw [h2], h3⟩

theorem addAll_congr_fields {σ : Type} (evalQty : String → σ → Int) (sc : σ) :
    ∀ (entries : List TemplateEntry) (s t : BOMState),
      s.lookup = t.lookup → s.items = t.items → s.details = t.details →
      (addAll evalQty s entries sc).lookup = (addAll evalQty t entries sc).lookup ∧
      (addAll evalQty s entries sc).items = (addAll evalQty t entries sc).items ∧
      (addAll evalQty s entries sc).details = (addAll evalQty t entries sc).details := by
  intro entries
  induction entries with
  | nil => intro s t h1 h2 h3; exact ⟨h1, h2, h3⟩
  | cons e rest ih =>
    intro s t h1 h2 h3
    have hstep := add_congr_fields s t e.partNumber (evalQty (qtyExpr e) sc) h1 h2 h3
    exact ih _ _ hstep.1 hstep.2.1 hstep.2.2

/-- C7: `buildFromTemplate` equals the composition of (i) clearing both
maps, (ii) folding the `add` operation over exactly the entries whose
inclusion expression is absent or evaluates truthy, with the quantity
obtained by evaluating each entry's quantity expression against the same
scope, and (iii) returning the resulting item list; consequently the result
list is independent of the entries previously tracked by the instance. -/
theorem bom_c7 {σ : Type} (evalIncl : String → σ → Bool)
    (evalQty : String → σ → Int) (s : BOMState) (tmpl : List TemplateEntry)
    (sc : σ) :
    (BOM.buildFromTemplate evalIncl evalQty s tmpl sc =
      (addAll evalQty (clearState s) (includedEntries evalIncl tmpl sc) sc,
       (addAll evalQty (clearState s) (includedEntries evalIncl tmpl sc) sc).items)) ∧
    (∀ t : BOMState, t.lookup = s.lookup →
      (BOM.buildFromTemplate evalIncl evalQty t tmpl sc).2 =
        (BOM.buildFromTemplate evalIncl evalQty s tmpl sc).2) := by
  refine ⟨buildFromTemplate_eq evalIncl evalQty s tmpl sc, ?_⟩
  intro t ht
  rw [buildFromTemplate_eq evalIncl evalQty t tmpl sc,
      buildFromTemplate_eq evalIncl evalQty s tmpl sc]
  exact (addAll_congr_fields evalQty sc (includedEntries evalIncl tmpl sc)
    (clearState t) (clearState s) ht rfl rfl).2.1

/-- C7 witness: the characterization applied to the example template and
the "n = 2" scope with the concrete spec-modelled evaluator, including the
independence conclusion for a fresh instance with the same query function. -/
theorem bom_c7_witness :
    (BOM.buildFromTemplate specTruthy specEval exStateA tmplEx scopeNoProto =
      (addAll specEval (clearState exStateA)
        (includedEntries specTruthy tmplEx scopeNoProto) scopeNoProto,
       (addAll specEval (clearState exStateA)
        (includedEntries specTruthy tmplEx scopeNoProto) scopeNoProto).items)) ∧
    (BOM.buildFromTemplate specTruthy specEval (BOM.mk lookup10) tmplEx scopeNoProto).2 =
      (BOM.buildFromTemplate specTruthy specEval exStateA tmplEx scopeNoProto).2 :=
  ⟨(bom_c7 specTruthy specEval exStateA tmplEx scopeNoProto).1,
   (bom_c7 specTruthy specEval exStateA tmplEx scopeNoProto).2 (BOM.mk lookup10) rfl⟩

theorem build_eval_congr {σ : Type} (evalIncl : String → σ → Bool)
    (evalQty : String → σ → Int) (sc1 sc2 : σ)
    (hB : ∀ e, evalIncl e sc1 = evalIncl e sc2)
    (hQ : ∀ e, evalQty e sc1 = evalQty e sc2)
    (s : BOMState) (tmpl : List TemplateEntry) :
    BOM.buildFromTemplate evalIncl evalQty s tmpl sc1 =
      BOM.buildFromTemplate evalIncl evalQty s tmpl sc2 := by
  unfold BOM.buildFromTemplate
  have hfun : (fun (st : BOMState) (e : TemplateEntry) =>
      if entryIncluded evalIncl sc1 e then
        (BOM.add st e.partNumber (evalQty (qtyExpr e) sc1)).1
      else st) =
      (fun st e =>
      if entryIncluded evalIncl sc2 e then
        (BOM.add st e.partNumber (evalQty (qtyExpr e) sc2)).1
      else st) := by
    funext st e
    have h1 : entryIncluded evalIncl sc1 e = entryIncluded evalIncl sc2 e := by
      unfold entryIncluded
      cases e.included with
      | none => rfl
      | some ex => exact hB ex
    rw [h1, hQ]
  rw [hfun]

/-- C8: expressions evaluated by `buildFromTemplate` see only the scope
object's own declared properties (spec-modelled evaluator): two scopes with
equal own-property maps but arbitrary — in particular different — prototype
chains produce identical build results on every template and state. -/
theorem bom_c8 (sc1 sc2 : Scope) (h : sc1.own = sc2.own)
    (s : BOMState) (tmpl : List TemplateEntry) :
    BOM.buildFromTemplate specTruthy specEval s tmpl sc1 =
      BOM.buildFromTemplate specTruthy specEval s tmpl sc2 :=
  build_eval_congr specTruthy specEval sc1 sc2
    (fun e => by unfold specTruthy specEval; rw [h])
    (fun e => by unfold specEval; rw [h])
    s tmpl

/-- C8 witness: the same own properties (`n = 2`) under an empty prototype
and under a prototype answering every name give the same build result on the
example template. -/
theorem bom_c8_witness :
    BOM.buildFromTemplate specTruthy specEval (BOM.mk lookup10) tmplEx scopeNoProto =
      BOM.buildFromTemplate specTruthy specEval (BOM.mk lookup10) tmplEx scopeWithProto :=
  bom_c8 scopeNoProto scopeWithProto rfl (BOM.mk lookup10) tmplEx

/-- C9: `remove(pn, q)` with `q < 0` on an untracked part number does not
leave the state unchanged: it inserts `pn` into `_items` with quantity
`0 - q > 0` while `_details` stays without `pn`, the operation performs no
lookup, and no later `add` on `pn` ever performs one. -/
theorem bom_c9 (s : BOMState) (pn : String) (q : Int)
    (hi : alGet s.items pn = none) (hd : alGet s.details pn = none)
    (hq : q < 0) :
    alGet (BOM.remove s pn (some q)).items pn = some (0 - q) ∧
    0 < 0 - q ∧
    alGet (BOM.remove s pn (some q)).details pn = none ∧
    BOM.remove s pn (some q) ≠ s ∧
    (BOM.remove s pn (some q)).lookupLog = s.lookupLog ∧
    (∀ q' : Int,
      (BOM.add (BOM.remove s pn (some q)) pn q').1.lookupLog = s.lookupLog) := by
  have hguard : ¬ ((some q : Option Int) = none ∨
      (alGet s.items pn).getD 0 - (some q : Option Int).getD 0 ≤ 0) := by
    rw [hi]
    simp
    omega
  have hupd := BOM.remove_upd s pn (some q) hguard
  have hval : (alGet s.items pn).getD 0 - (some q : Option Int).getD 0 = 0 - q := by
    rw [hi]
    rfl
  have hitems : alGet (BOM.remove s pn (some q)).items pn = some (0 - q) := by
    rw [hupd]
    show alGet (alSet s.items pn ((alGet s.items pn).getD 0 - (some q : Option Int).getD 0)) pn
      = some (0 - q)
    rw [alGet_alSet, if_pos rfl, hval]
  refine ⟨hitems, by omega, ?_, ?_, ?_, ?_⟩
  · rw [hupd]
    exact hd
  · intro he
    rw [he, hi] at hitems
    exact absurd hitems (by simp)
  · rw [hupd]
  · intro q'
    have := add_tracked_items_log (BOM.remove s pn (some q)) pn q' (0 - q) hitems
    rw [this.2, hupd]

/-- C9 witness: `remove("A", -2)` on a fresh instance inserts "A" at
quantity 2 with no detail record and no lookup, now or on a later `add`. -/
theorem bom_c9_witness :
    alGet (BOM.remove (BOM.mk lookup10) "A" (some (-2))).items "A" = some (0 - (-2)) ∧
    0 < 0 - (-2 : Int) ∧
    alGet (BOM.remove (BOM.mk lookup10) "A" (some (-2))).details "A" = none ∧
    BOM.remove (BOM.mk lookup10) "A" (some (-2)) ≠ BOM.mk lookup10 ∧
    (BOM.remove (BOM.mk lookup10) "A" (some (-2))).lookupLog = (BOM.mk lookup10).lookupLog ∧
    (∀ q' : Int,
      (BOM.add (BOM.remove (BOM.mk lookup10) "A" (some (-2))) "A" q').1.lookupLog =
        (BOM.mk lookup10).lookupLog) :=
  bom_c9 (BOM.mk lookup10) "A" (-2) rfl rfl (by decide)

/-- C10: the TypeScript `remove` and the legacy JavaScript `remove` are NOT
equivalent.  The legacy version's first guard is `if (pn !== "string")` — it
compares the part-number value against the literal `"string"` instead of
checking its type — so it throws for the ordinary part number "A" (tracked
at quantity 2) where the TypeScript version deletes the entry from both
maps, and it proceeds without throwing exactly for the part number
`"string"`. -/
theorem bom_c10_bug :
    legacyRemove exStateA "A" none = Except.error "Part number must be a string." ∧
    legacyRemove (BOM.mk lookup10) "string" none = Except.ok (BOM.mk lookup10) ∧
    alGet (BOM.remove exStateA "A" none).items "A" = none ∧
    alGet (BOM.remove exStateA "A" none).details "A" = none := by
  refine ⟨rfl, rfl, ?_, ?_⟩
  · rw [BOM.remove_del exStateA "A" none (Or.inl rfl), alGet_alDelete, if_pos rfl]
  · rw [BOM.remove_del exStateA "A" none (Or.inl rfl), alGet_alDelete, if_pos rfl]
